import Mathlib

/-!
Shallow embedding of `main.go` from the `workbook_downloader` repository.

The program downloads a contiguous range of numbered images with a pool of
`WorkerCount` goroutines, normalizes each decoded image to 8-bit RGBA via
`convertTo8Bit`, collects the tagged results from a channel into a map keyed
by index, and finally walks the index range in ascending order, appending one
PDF page per successfully downloaded image.

The embedding below models:
 * Go's `image`/`draw` pixel semantics for `convertTo8Bit` (`GoImage`,
   `rgbaModel`, `convertTo8Bit`);
 * the `ImageData` result record produced by `worker`;
 * the collector loop of `main` (`imageMapOf`, `orderedEmission`);
 * `AddImageToPDF` with `png.Encode` abstracted as a stub encoder;
 * the whole of `main` as `goMain` (channel creation, whose buffer size
   `last - first + 1` must be nonnegative) wrapping the pipeline `runMain`,
   parameterized by the stubbed fetcher, encoder, file-write outcome and the
   (nondeterministic) arrival order of results on the channel;
 * the worker pool's distribution of jobs (`workerJobs`, `allResults`),
   parameterized by a schedule assigning each queued job to a worker;
 * a small-step machine for the synchronization skeleton of `main`
   (`PoolState`, `PoolStep`) covering the `sync.WaitGroup`, the closing of
   the results channel and the collector's `range` loop.
-/

/-! ## The Go image model -/

/-- Go's `image.Rectangle` restricted to what the program uses: an axis-aligned
rectangle with inclusive min and exclusive max coordinates. -/
structure Rect where
  minX : Int
  minY : Int
  maxX : Int
  maxY : Int
deriving DecidableEq, Repr

/-- Go's `Point.In(Rectangle)`: membership in the half-open coordinate box. -/
def Rect.contains (r : Rect) (x y : Int) : Bool :=
  decide (r.minX ≤ x) && decide (x < r.maxX) && decide (r.minY ≤ y) && decide (y < r.maxY)

/-- A color as returned by Go's `color.Color.RGBA()`: four alpha-premultiplied
channels in `[0, 0xffff]`. -/
structure Color where
  r : Nat
  g : Nat
  b : Nat
  a : Nat
deriving DecidableEq, Repr

/-- The zero color (`color.RGBA{}`), returned by `image.RGBA.At` outside the
image's rectangle and stored in a freshly allocated `image.NewRGBA` buffer. -/
def zeroColor : Color := ⟨0, 0, 0, 0⟩

/-- A Go `image.Image`: a bounds rectangle and a color lookup. `At` is the
color the image reports at a coordinate (already in `RGBA()` form). -/
structure GoImage where
  bounds : Rect
  At : Int → Int → Color

/-- The 16-bit color a `color.RGBA` with the four given 8-bit channels reports
from `RGBA()`: each stored byte `v` is widened to `v | v << 8 = v * 0x101`. -/
def widen8 (r g b a : Nat) : Color :=
  ⟨r * 0x101, g * 0x101, b * 0x101, a * 0x101⟩

/-- Go's `color.RGBAModel` applied to a color and read back through
`image.RGBA.At`: each channel of `c.RGBA()` is truncated to the byte
`uint8(v >> 8)` on storage and widened again on lookup. -/
def rgbaModel (c : Color) : Color :=
  widen8 ((c.r >>> 8) % 256) ((c.g >>> 8) % 256) ((c.b >>> 8) % 256) ((c.a >>> 8) % 256)

/-- A color is in 8-bit RGBA form when it is the widening of four bytes,
i.e. exactly the colors an `image.RGBA` pixel can report. -/
def Is8BitColor (c : Color) : Prop :=
  ∃ r g b a : Nat, r < 256 ∧ g < 256 ∧ b < 256 ∧ a < 256 ∧ c = widen8 r g b a

/-- An image is normalized when every coordinate reports an 8-bit RGBA color
(the pixel format an `image.RGBA` produced by `convertTo8Bit` has). -/
def IsNormalized (img : GoImage) : Prop :=
  ∀ x y : Int, Is8BitColor (img.At x y)

/-- `convertTo8Bit` from `main.go`:

```go
rgba := image.NewRGBA(img.Bounds())
draw.Draw(rgba, rgba.Bounds(), img, image.Point{}, draw.Src)
return rgba
```

`draw.Draw(dst, r, src, sp, draw.Src)` aligns `r.Min` in `dst` with `sp` in
`src`, so with `sp = (0,0)` the destination pixel `(x, y)` receives the source
pixel `(x - r.Min.X, y - r.Min.Y)`, clipped to the coordinates where that
translated source point lies inside the source rectangle; all other pixels of
the freshly allocated buffer keep the zero color. Each copied color passes
through `color.RGBAModel` when stored into the `image.RGBA` buffer. -/
def convertTo8Bit (img : GoImage) : GoImage :=
  { bounds := img.bounds
    At := fun x y =>
      if img.bounds.contains x y
          && img.bounds.contains (x - img.bounds.minX) (y - img.bounds.minY) then
        rgbaModel (img.At (x - img.bounds.minX) (y - img.bounds.minY))
      else zeroColor }

/-- `DownloadImage` from `main.go`, with the HTTP response and the image
decoder stubbed: on transport failure or decode failure the tagged error is
returned, otherwise the decoded image is passed through `convertTo8Bit`
unconditionally. -/
def DownloadImage (httpGet : Except String ByteArray)
    (decodeImage : ByteArray → Except String GoImage) : Except String GoImage :=
  match httpGet with
  | .error e => .error ("failed to download image: " ++ e)
  | .ok body =>
    match decodeImage body with
    | .error e => .error ("failed to decode image: " ++ e)
    | .ok img => .ok (convertTo8Bit img)

/-! ## Identifier range and fetch results -/

/-- The ascending run of `n` consecutive integers starting at `first`. -/
def idRangeAux (first : Int) : Nat → List Int
  | 0 => []
  | n + 1 => first :: idRangeAux (first + 1) n

/-- The list of identifiers visited by `for i := first; i <= last; i++`: the
loop body runs `(last + 1 - first).toNat` times, once per integer of the
closed interval `[first, last]` in ascending order. -/
def idRange (first last : Int) : List Int :=
  idRangeAux first (last + 1 - first).toNat

/-- The `ImageData` record of `main.go`: index, image (nil on failure, modelled
by `Option`) and error (nil on success). -/
structure ImageData (α : Type) where
  index : Int
  image : Option α
  error : Option String
deriving DecidableEq, Repr

/-- The result a worker publishes for identifier `i` given the stubbed fetcher:
`img, err := DownloadImage(url); results <- ImageData{Index: index, Image: img, Error: err}`. -/
def mkResult (fetch : Int → Except String α) (i : Int) : ImageData α :=
  match fetch i with
  | .ok img => ⟨i, some img, none⟩
  | .error e => ⟨i, none, some e⟩

/-- The multiset of results produced by a complete run of the pool, listed in
identifier order (an actual run delivers a permutation of this list). -/
def canonicalResults (first last : Int) (fetch : Int → Except String α) :
    List (ImageData α) :=
  (idRange first last).map (mkResult fetch)

/-! ## The collector -/

/-- One iteration of the collector loop of `main`: an error result is logged
and dropped, a success result is stored in the map under its index
(`imageMap[data.Index] = data.Image`). The map is modelled as a function to
`Option (Option α)`: the outer `Option` is presence in the Go map, the inner
one the nillability of the stored `image.Image`. -/
def collectStep (m : Int → Option (Option α)) (d : ImageData α) :
    Int → Option (Option α) :=
  fun i => if d.error.isSome then m i else if i = d.index then some d.image else m i

/-- The map built by the collector after consuming the whole result stream in
arrival order. -/
def imageMapOf (rs : List (ImageData α)) : Int → Option (Option α) :=
  rs.foldl collectStep (fun _ => none)

/-- The ordered emission of `main` (lines 123–130): walk the identifier range
in ascending order and hand each present map entry to the document builder. -/
def orderedEmission (first last : Int) (m : Int → Option (Option α)) :
    List (Int × Option α) :=
  (idRange first last).filterMap (fun i => (m i).map (fun img => (i, img)))

/-! ## The document builder stage -/

/-- `AddImageToPDF` from `main.go`, with `png.Encode` stubbed as `encode` and
the pdf modelled as its list of pages (each page holding the index used for
the registered image name and the encoded bytes). The code encodes first and
returns the error before `pdf.AddPage()`, so on encoding failure the document
is unchanged. -/
def AddImageToPDF (encode : α → Except String β) (pdf : List (Int × β))
    (img : α) (i : Int) : List (Int × β) × Option String :=
  match encode img with
  | .error e => (pdf, some ("failed to encode image: " ++ e))
  | .ok buf => (pdf ++ [(i, buf)], none)

/-- The page-building loop of `main` (lines 123–130) over the ordered
emission: each emitted pair is handed to `AddImageToPDF`; an error is logged
(collected with its index) and the loop continues. A `none` image would be a
nil `image.Image` handed to `png.Encode`, which panics: the whole run is
modelled as `Option`, `none` standing for that panic. -/
def buildPages (encode : α → Except String β) :
    List (Int × Option α) → List (Int × β) → List (Int × String) →
    Option (List (Int × β) × List (Int × String))
  | [], pdf, errs => some (pdf, errs)
  | (_, none) :: _, _, _ => none
  | (i, some img) :: rest, pdf, errs =>
    match AddImageToPDF encode pdf img i with
    | (pdf', none) => buildPages encode rest pdf' errs
    | (pdf', some e) => buildPages encode rest pdf' (errs ++ [(i, e)])

/-- Everything `main` leaves behind: the built document, the two kinds of
per-identifier error logs, the outcome of `pdf.OutputFileAndClose` and the
final line printed by the unconditional `fmt.Println`. -/
structure RunOutcome (β : Type) where
  pages : List (Int × β)
  downloadErrors : List (Int × String)
  addErrors : List (Int × String)
  saveError : Option String
  finalMessage : String
deriving Repr

/-- The processing pipeline of `main` (lines 92–139), given that the channel
creation of lines 89–90 succeeded; `goMain` below adds that step.
Parameterized by the stubbed fetcher, the stubbed encoder, the outcome of
writing the file, and the order in which the tagged results arrive on the
results channel. The collector logs and drops error results and stores
success results (`imageMapOf`); the ordered emission is then fed to the
page-building loop; the save error, if any, is recorded; the success message
is printed unconditionally. `none` models a panic (only possible if a
success result carried a nil image, which workers never produce). -/
def runMain (first last : Int) (encode : α → Except String β)
    (writeResult : Option String) (arrival : List (ImageData α)) :
    Option (RunOutcome β) :=
  match buildPages encode (orderedEmission first last (imageMapOf arrival)) [] [] with
  | none => none
  | some (pdf, addErrs) =>
    some { pages := pdf
           downloadErrors := arrival.filterMap (fun d => d.error.map (fun e => (d.index, e)))
           addErrors := addErrs
           saveError := writeResult
           finalMessage := "PDF created successfully as final_output.pdf" }

/-- The whole of `main` including the channel creation of lines 89–90:
`make(chan int, LastImageIndex-FirstImageIndex+1)` requires a nonnegative
buffer size, so for `last - first + 1 < 0` (that is, `first > last + 1`) the
program fails before any pipeline stage runs — a negative constant buffer
size is rejected at compile time, and the equivalent runtime value panics in
`makechan`. `none` models that failure; otherwise the run proceeds as
`runMain`. -/
def goMain (first last : Int) (encode : α → Except String β)
    (writeResult : Option String) (arrival : List (ImageData α)) :
    Option (RunOutcome β) :=
  if last - first + 1 < 0 then none
  else runMain first last encode writeResult arrival

/-! ## The worker pool -/

/-- The jobs the worker with id `j` receives, for a given schedule: the jobs
channel is pre-loaded with the whole identifier range and closed, channel
semantics delivers each queued value to exactly one receiver, and `s`
records which worker received each queued value (position `k` of `s` names
the receiver of the `k`-th queued job). -/
def workerJobs (jobs : List Int) (s : List (Fin w)) (j : Fin w) : List Int :=
  (jobs.zip s).filterMap (fun p => if p.2 = j then some p.1 else none)

/-- The results published by worker `j`: one tagged `ImageData` per received
job, in order (the body of `worker` in `main.go`). -/
def workerResults (fetch : Int → Except String α) (jobs : List Int)
    (s : List (Fin w)) (j : Fin w) : List (ImageData α) :=
  (workerJobs jobs s j).map (mkResult fetch)

/-- All results published to the results channel across the pool, worker by
worker; an actual execution interleaves these lists, so per-identifier counts
in any real arrival order agree with the counts here. -/
def allResults (fetch : Int → Except String α) (jobs : List Int)
    (s : List (Fin w)) : List (ImageData α) :=
  (List.finRange w).flatMap (fun j => workerResults fetch jobs s j)

/-! ## The synchronization skeleton of `main` -/

/-- The synchronization-relevant state of a run of `main`: the jobs channel
buffer and its closed flag, the per-worker progress (the job currently being
processed, whether the worker has returned and its deferred `wg.Done` has
run), the results channel buffer and its closed flag, and the collector's
progress. -/
structure PoolState (w : Nat) (α : Type) where
  toSend : List Int
  pending : List Int
  jobsClosed : Bool
  busy : Fin w → Option Int
  exited : Fin w → Bool
  resultsBuf : List (ImageData α)
  resultsClosed : Bool
  collected : List (ImageData α)
  collectorDone : Bool

/-- The initial state: `main` has yet to send any job, no worker has received
anything, both channels are open and empty, the collector has consumed
nothing. -/
def initState (w : Nat) (α : Type) (first last : Int) : PoolState w α :=
  { toSend := idRange first last
    pending := []
    jobsClosed := false
    busy := fun _ => none
    exited := fun _ => false
    resultsBuf := []
    resultsClosed := false
    collected := []
    collectorDone := false }

/-- One interleaving step of the run: `main` sends the next job or closes the
jobs channel once all are sent; a worker receives a queued job
(`for index := range jobs`), publishes its tagged result, or — when the jobs
channel is closed and drained — returns, running its deferred `wg.Done()`;
the goroutine `go func() { wg.Wait(); close(results) }()` closes the results
channel, which `wg.Wait()` allows only after every worker has called
`wg.Done()`; the collector receives a buffered result, or — since
`for data := range results` ends exactly on a closed, drained channel —
finishes. -/
inductive PoolStep (fetch : Int → Except String α) :
    PoolState w α → PoolState w α → Prop where
  | sendJob (s : PoolState w α) (i : Int) (rest : List Int)
      (h : s.toSend = i :: rest) (hcl : s.jobsClosed = false) :
      PoolStep fetch s { s with toSend := rest, pending := s.pending ++ [i] }
  | closeJobs (s : PoolState w α)
      (h : s.toSend = []) (hcl : s.jobsClosed = false) :
      PoolStep fetch s { s with jobsClosed := true }
  | takeJob (s : PoolState w α) (j : Fin w) (i : Int) (rest : List Int)
      (hb : s.busy j = none) (hex : s.exited j = false)
      (hp : s.pending = i :: rest) :
      PoolStep fetch s { s with pending := rest, busy := Function.update s.busy j (some i) }
  | publish (s : PoolState w α) (j : Fin w) (i : Int)
      (hb : s.busy j = some i) (hcl : s.resultsClosed = false) :
      PoolStep fetch s { s with resultsBuf := s.resultsBuf ++ [mkResult fetch i],
                                busy := Function.update s.busy j none }
  | workerExit (s : PoolState w α) (j : Fin w)
      (hb : s.busy j = none) (hex : s.exited j = false)
      (hp : s.pending = []) (hcl : s.jobsClosed = true) :
      PoolStep fetch s { s with exited := Function.update s.exited j true }
  | closeResults (s : PoolState w α)
      (hall : ∀ j : Fin w, s.exited j = true) (hcl : s.resultsClosed = false) :
      PoolStep fetch s { s with resultsClosed := true }
  | collectorRecv (s : PoolState w α) (d : ImageData α) (rest : List (ImageData α))
      (hr : s.resultsBuf = d :: rest) (hdone : s.collectorDone = false) :
      PoolStep fetch s { s with resultsBuf := rest, collected := s.collected ++ [d] }
  | collectorFinish (s : PoolState w α)
      (hr : s.resultsBuf = []) (hcl : s.resultsClosed = true)
      (hdone : s.collectorDone = false) :
      PoolStep fetch s { s with collectorDone := true }

/-- Reachability from the initial state under the interleaving semantics. -/
def Reachable (fetch : Int → Except String α) (w : Nat) (first last : Int)
    (s : PoolState w α) : Prop :=
  Relation.ReflTransGen (PoolStep fetch) (initState w α first last) s

/-! ## Characterization targets

Ideal per-identifier descriptions used in the statements of the theorems
below; each is compared against what the embedded program computes. -/

/-- The entry the ordered emission should produce for identifier `i`. -/
def emissionFor (fetch : Int → Except String α) (i : Int) : Option (Int × Option α) :=
  match fetch i with
  | .ok img => some (i, some img)
  | .error _ => none

/-- The page the finished document should hold for identifier `i`. -/
def pageFor (fetch : Int → Except String α) (encode : α → Except String β)
    (i : Int) : Option (Int × β) :=
  match fetch i with
  | .ok img =>
    match encode img with
    | .ok buf => some (i, buf)
    | .error _ => none
  | .error _ => none

/-- The page-append error log entry identifier `i` should produce. -/
def addErrorFor (fetch : Int → Except String α) (encode : α → Except String β)
    (i : Int) : Option (Int × String) :=
  match fetch i with
  | .ok img =>
    match encode img with
    | .ok _ => none
    | .error e => some (i, "failed to encode image: " ++ e)
  | .error _ => none

/-- The download error log entry identifier `i` should produce. -/
def downloadErrorFor (fetch : Int → Except String α) (i : Int) :
    Option (Int × String) :=
  match fetch i with
  | .ok _ => none
  | .error e => some (i, e)

/-- The page produced by `buildPages` from one emitted pair. -/
def pageOfEmitted (encode : α → Except String β) (p : Int × Option α) :
    Option (Int × β) :=
  match p.2 with
  | some img =>
    match encode img with
    | .ok buf => some (p.1, buf)
    | .error _ => none
  | none => none

/-- The error log entry produced by `buildPages` from one emitted pair. -/
def errOfEmitted (encode : α → Except String β) (p : Int × Option α) :
    Option (Int × String) :=
  match p.2 with
  | some img =>
    match encode img with
    | .ok _ => none
    | .error e => some (p.1, "failed to encode image: " ++ e)
  | none => none

/-! ## Concrete fixtures

Small concrete instantiations (stub fetchers, encoders, arrival orders and
images) used to evaluate the theorems below on closed inputs. -/

/-- A stub fetcher on range `[1, 3]` failing exactly at identifier `2`. -/
def fetchC1 : Int → Except String Nat :=
  fun i => if i = 2 then .error "boom" else .ok (i.toNat * 10)

/-- The results of `fetchC1` on `[1, 3]` arriving in reversed order. -/
def rsC1 : List (ImageData Nat) :=
  [⟨3, some 30, none⟩, ⟨2, none, some "boom"⟩, ⟨1, some 10, none⟩]

/-- A stub fetcher that always succeeds. -/
def fetchOk : Int → Except String Nat := fun i => .ok i.toNat

/-- A stub fetcher that always fails. -/
def fetchBad : Int → Except String Nat := fun _ => .error "down"

/-- A stub encoder that always succeeds. -/
def encodeOk : Nat → Except String Nat := fun n => .ok n

/-- A stub encoder that always fails. -/
def encodeBad : Nat → Except String Nat := fun _ => .error "bad png"

/-- A stub encoder failing exactly on payload `30`. -/
def encode30 : Nat → Except String Nat :=
  fun n => if n = 30 then .error "bad png" else .ok n

/-- Two arrivals of the same result set in opposite orders. -/
def rsC4a : List (ImageData Nat) :=
  [⟨1, some 10, none⟩, ⟨2, none, some "down"⟩, ⟨3, some 30, none⟩]

/-- See `rsC4a`. -/
def rsC4b : List (ImageData Nat) :=
  [⟨3, some 30, none⟩, ⟨2, none, some "down"⟩, ⟨1, some 10, none⟩]

/-- A schedule for two workers over a two-job queue: worker 0 receives the
first queued job, worker 1 the second. -/
def scheduleC2 : List (Fin 2) := [0, 1]

/-- A 1×1 normalized image whose bounds do not start at the origin. -/
def imgOffOrigin : GoImage :=
  { bounds := ⟨1, 1, 2, 2⟩, At := fun _ _ => widen8 255 0 0 255 }

/-- A 1×1 normalized image with bounds starting at the origin. -/
def imgAtOrigin : GoImage :=
  { bounds := ⟨0, 0, 1, 1⟩, At := fun _ _ => widen8 255 0 0 255 }

/-- The state of the `w = 1`, empty-range run after `main` closes the jobs
channel. -/
def poolS1 : PoolState 1 Nat := { initState 1 Nat 1 0 with jobsClosed := true }

/-- `poolS1` after the single worker exits. -/
def poolS2 : PoolState 1 Nat :=
  { poolS1 with exited := Function.update poolS1.exited 0 true }

/-- `poolS2` after the closer goroutine seals the results channel. -/
def poolS3 : PoolState 1 Nat := { poolS2 with resultsClosed := true }

/-- `poolS3` after the collector observes end-of-stream and finishes. -/
def poolS4 : PoolState 1 Nat := { poolS3 with collectorDone := true }

/-! ## Basic lemmas: the identifier range -/

theorem mem_idRangeAux {first : Int} {n : Nat} {i : Int} :
    i ∈ idRangeAux first n ↔ first ≤ i ∧ i < first + n := by
  induction n generalizing first with
  | zero => simp only [idRangeAux, List.not_mem_nil, false_iff]; omega
  | succ n ih =>
    simp only [idRangeAux, List.mem_cons, ih]
    constructor
    · rintro (rfl | ⟨h₁, h₂⟩) <;> omega
    · intro ⟨h₁, h₂⟩
      by_cases hi : i = first
      · exact Or.inl hi
      · exact Or.inr ⟨by omega, by omega⟩

theorem mem_idRange {first last i : Int} :
    i ∈ idRange first last ↔ first ≤ i ∧ i ≤ last := by
  unfold idRange
  rw [mem_idRangeAux]
  omega

theorem idRange_eq_nil {first last : Int} (h : last < first) :
    idRange first last = [] := by
  unfold idRange
  have : (last + 1 - first).toNat = 0 := by omega
  rw [this]
  rfl

theorem idRangeAux_pairwise (first : Int) (n : Nat) :
    (idRangeAux first n).Pairwise (· < ·) := by
  induction n generalizing first with
  | zero => exact List.Pairwise.nil
  | succ n ih =>
    refine List.pairwise_cons.mpr ⟨fun i hi => ?_, ih (first + 1)⟩
    rw [mem_idRangeAux] at hi
    omega

theorem idRange_pairwise (first last : Int) :
    (idRange first last).Pairwise (· < ·) :=
  idRangeAux_pairwise first _

theorem idRange_nodup (first last : Int) : (idRange first last).Nodup :=
  (idRange_pairwise first last).imp ne_of_lt

/-! ## Basic lemmas: the collector's map -/

theorem mkResult_index (fetch : Int → Except String α) (i : Int) :
    (mkResult fetch i).index = i := by
  unfold mkResult
  cases fetch i <;> rfl

theorem canonicalResults_map_index (first last : Int)
    (fetch : Int → Except String α) :
    (canonicalResults first last fetch).map ImageData.index = idRange first last := by
  unfold canonicalResults
  rw [List.map_map]
  have : ImageData.index ∘ mkResult fetch = fun i => i := by
    funext i
    exact mkResult_index fetch i
  rw [this, List.map_id']

theorem foldl_collectStep_apply_congr {rs : List (ImageData α)}
    {m₁ m₂ : Int → Option (Option α)} {i : Int} (h : m₁ i = m₂ i) :
    rs.foldl collectStep m₁ i = rs.foldl collectStep m₂ i := by
  induction rs generalizing m₁ m₂ with
  | nil => exact h
  | cons d rs ih =>
    rw [List.foldl_cons, List.foldl_cons]
    exact ih (by simp only [collectStep, h])

theorem foldl_collectStep_not_mem {rs : List (ImageData α)}
    {m : Int → Option (Option α)} {i : Int} (h : ∀ d ∈ rs, d.index ≠ i) :
    rs.foldl collectStep m i = m i := by
  induction rs generalizing m with
  | nil => rfl
  | cons d rs ih =>
    rw [List.foldl_cons, ih (fun d' hd' => h d' (List.mem_cons_of_mem d hd'))]
    have hne : i ≠ d.index := fun hh => h d (List.mem_cons_self d rs) hh.symm
    simp only [collectStep, if_neg hne, ite_self]

theorem collectStep_comm {x y : ImageData α} (h : x.index ≠ y.index ∨ x = y)
    (z : Int → Option (Option α)) :
    collectStep (collectStep z x) y = collectStep (collectStep z y) x := by
  rcases h with h | rfl
  · funext i
    by_cases hex : x.error.isSome <;> by_cases hey : y.error.isSome <;>
      by_cases hix : i = x.index <;> by_cases hiy : i = y.index <;>
        simp_all [collectStep]
  · rfl

theorem imageMapOf_perm {rs₁ rs₂ : List (ImageData α)} (hp : rs₁.Perm rs₂)
    (hnd : (rs₁.map ImageData.index).Nodup) :
    imageMapOf rs₁ = imageMapOf rs₂ := by
  have hinj := List.inj_on_of_nodup_map hnd
  unfold imageMapOf
  refine hp.foldl_eq' (fun x hx y hy z => ?_) _
  by_cases hxy : x = y
  · rw [hxy]
  · exact collectStep_comm (Or.inl fun hh => hxy (hinj hx hy hh)) z

theorem imageMapOf_map_mkResult (fetch : Int → Except String α) {L : List Int}
    (hnd : L.Nodup) (i : Int) :
    imageMapOf (L.map (mkResult fetch)) i =
      if i ∈ L then
        match fetch i with
        | .ok img => some (some img)
        | .error _ => none
      else none := by
  induction L with
  | nil => simp [imageMapOf]
  | cons j L ih =>
    have hnd' : L.Nodup := hnd.of_cons
    have hjL : j ∉ L := (List.nodup_cons.mp hnd).1
    rw [List.map_cons]
    unfold imageMapOf at ih ⊢
    rw [List.foldl_cons]
    by_cases hij : i = j
    · subst hij
      have hnm : ∀ d ∈ L.map (mkResult fetch), d.index ≠ i := by
        intro d hd
        obtain ⟨i', hi', rfl⟩ := List.mem_map.mp hd
        rw [mkResult_index]
        exact fun hh => hjL (hh ▸ hi')
      rw [foldl_collectStep_not_mem hnm]
      simp only [List.mem_cons, true_or, if_true]
      unfold collectStep mkResult
      cases hf : fetch i <;> simp
    · have hstep : collectStep (fun _ => none) (mkResult fetch j) i
          = (fun _ : Int => (none : Option (Option α))) i := by
        unfold collectStep mkResult
        cases fetch j <;> simp [hij]
      have h1 : List.foldl collectStep (collectStep (fun _ => none) (mkResult fetch j))
            (L.map (mkResult fetch)) i
          = List.foldl collectStep (fun _ => none) (L.map (mkResult fetch)) i :=
        foldl_collectStep_apply_congr hstep
      rw [h1, ih hnd']
      simp only [List.mem_cons, hij, false_or]

/-! ## The collector's map on a full arrival -/

theorem imageMapOf_arrival (first last : Int) (fetch : Int → Except String α)
    {rs : List (ImageData α)} (hp : rs.Perm (canonicalResults first last fetch))
    (i : Int) :
    imageMapOf rs i =
      if first ≤ i ∧ i ≤ last then
        match fetch i with
        | .ok img => some (some img)
        | .error _ => none
      else none := by
  have hnd : (rs.map ImageData.index).Nodup := by
    have h2 := hp.map ImageData.index
    rw [canonicalResults_map_index] at h2
    exact h2.nodup_iff.mpr (idRange_nodup first last)
  rw [imageMapOf_perm hp hnd]
  unfold canonicalResults
  rw [imageMapOf_map_mkResult fetch (idRange_nodup first last) i]
  simp only [mem_idRange]

theorem orderedEmission_arrival (first last : Int) (fetch : Int → Except String α)
    {rs : List (ImageData α)} (hp : rs.Perm (canonicalResults first last fetch)) :
    orderedEmission first last (imageMapOf rs) =
      (idRange first last).filterMap (emissionFor fetch) := by
  unfold orderedEmission
  refine List.filterMap_congr (fun i hi => ?_)
  rw [imageMapOf_arrival first last fetch hp i]
  rw [mem_idRange] at hi
  rw [if_pos hi]
  unfold emissionFor
  cases fetch i <;> rfl

theorem pairwise_fst_lt_filterMap {l : List Int} {F : Int → Option (Int × γ)}
    (hF : ∀ i p, F i = some p → p.1 = i) (h : l.Pairwise (· < ·)) :
    (l.filterMap F).Pairwise (fun p q => p.1 < q.1) := by
  induction l with
  | nil => simp
  | cons j l ih =>
    rw [List.filterMap_cons]
    obtain ⟨hj, hl⟩ := List.pairwise_cons.mp h
    cases hFj : F j with
    | none => exact ih hl
    | some p =>
      refine List.pairwise_cons.mpr ⟨fun q hq => ?_, ih hl⟩
      obtain ⟨i, hi, hqi⟩ := List.mem_filterMap.mp hq
      rw [hF j p hFj, hF i q hqi]
      exact hj i hi

/-! ## The page-building loop -/

theorem buildPages_spec (encode : α → Except String β)
    (ems : List (Int × Option α)) (pdf : List (Int × β))
    (errs : List (Int × String)) (hs : ∀ p ∈ ems, p.2.isSome) :
    buildPages encode ems pdf errs =
      some (pdf ++ ems.filterMap (pageOfEmitted encode),
            errs ++ ems.filterMap (errOfEmitted encode)) := by
  induction ems generalizing pdf errs with
  | nil => simp [buildPages]
  | cons p ems ih =>
    obtain ⟨i, o⟩ := p
    cases o with
    | none => exact absurd (hs (i, none) (List.mem_cons_self _ _)) (by simp)
    | some img =>
      have hs' : ∀ q ∈ ems, q.2.isSome :=
        fun q hq => hs q (List.mem_cons_of_mem _ hq)
      cases henc : encode img with
      | ok buf =>
        rw [show buildPages encode ((i, some img) :: ems) pdf errs
              = buildPages encode ems (pdf ++ [(i, buf)]) errs by
            simp [buildPages, AddImageToPDF, henc]]
        rw [ih _ _ hs']
        simp [pageOfEmitted, errOfEmitted, henc, List.filterMap_cons]
      | error e =>
        rw [show buildPages encode ((i, some img) :: ems) pdf errs
              = buildPages encode ems pdf
                  (errs ++ [(i, "failed to encode image: " ++ e)]) by
            simp [buildPages, AddImageToPDF, henc]]
        rw [ih _ _ hs']
        simp [pageOfEmitted, errOfEmitted, henc, List.filterMap_cons]

/-! ## The whole run -/

theorem runMain_spec (first last : Int) (fetch : Int → Except String α)
    (encode : α → Except String β) (writeResult : Option String)
    {arrival : List (ImageData α)}
    (hp : arrival.Perm (canonicalResults first last fetch)) :
    runMain first last encode writeResult arrival =
      some { pages := (idRange first last).filterMap (pageFor fetch encode)
             downloadErrors := arrival.filterMap
               (fun d => d.error.map (fun e => (d.index, e)))
             addErrors := (idRange first last).filterMap (addErrorFor fetch encode)
             saveError := writeResult
             finalMessage := "PDF created successfully as final_output.pdf" } := by
  unfold runMain
  rw [orderedEmission_arrival first last fetch hp]
  have hs : ∀ p ∈ (idRange first last).filterMap (emissionFor fetch), p.2.isSome := by
    intro p hp'
    obtain ⟨i, _, hFi⟩ := List.mem_filterMap.mp hp'
    unfold emissionFor at hFi
    cases hf : fetch i <;> rw [hf] at hFi
    · exact absurd hFi (by simp)
    · cases hFi
      rfl
  rw [buildPages_spec encode _ [] [] hs]
  have hpages : ((idRange first last).filterMap (emissionFor fetch)).filterMap
        (pageOfEmitted encode)
      = (idRange first last).filterMap (pageFor fetch encode) := by
    rw [List.filterMap_filterMap]
    refine List.filterMap_congr (fun i _ => ?_)
    cases hf : fetch i with
    | error e => simp [emissionFor, pageFor, hf]
    | ok img =>
      cases he : encode img <;>
        simp [emissionFor, pageFor, pageOfEmitted, hf, he]
  have herrs : ((idRange first last).filterMap (emissionFor fetch)).filterMap
        (errOfEmitted encode)
      = (idRange first last).filterMap (addErrorFor fetch encode) := by
    rw [List.filterMap_filterMap]
    refine List.filterMap_congr (fun i _ => ?_)
    cases hf : fetch i with
    | error e => simp [emissionFor, addErrorFor, hf]
    | ok img =>
      cases he : encode img <;>
        simp [emissionFor, addErrorFor, errOfEmitted, hf, he]
  rw [hpages, herrs]
  simp

/-! ## Claim theorems: the collector (C1, C4) -/

/-- C1: for every run over `[first, last]` (every arrival order of the pool's
results), the sequence of (identifier, bitmap) pairs handed to the document
builder is exactly the ascending run of identifiers whose fetch succeeded:
it equals the range filtered to the successful fetches, it is strictly
ascending by identifier, and an identifier appears in it iff it lies in the
range and its fetch succeeded — failed identifiers are entirely absent. -/
theorem collector_emission_exact (first last : Int)
    (fetch : Int → Except String α) {rs : List (ImageData α)}
    (hp : rs.Perm (canonicalResults first last fetch)) :
    orderedEmission first last (imageMapOf rs)
      = (idRange first last).filterMap (emissionFor fetch) ∧
    (orderedEmission first last (imageMapOf rs)).Pairwise
      (fun p q => p.1 < q.1) ∧
    (∀ i : Int, (∃ o, (i, o) ∈ orderedEmission first last (imageMapOf rs)) ↔
      (first ≤ i ∧ i ≤ last ∧ ∃ img, fetch i = .ok img)) := by
  have he := orderedEmission_arrival first last fetch hp
  refine ⟨he, ?_, ?_⟩
  · rw [he]
    refine pairwise_fst_lt_filterMap (fun i p hip => ?_) (idRange_pairwise first last)
    unfold emissionFor at hip
    cases hf : fetch i <;> rw [hf] at hip
    · cases hip
    · cases hip
      rfl
  · intro i
    rw [he]
    constructor
    · rintro ⟨o, ho⟩
      obtain ⟨i', hi', hFi⟩ := List.mem_filterMap.mp ho
      unfold emissionFor at hFi
      cases hf : fetch i' <;> rw [hf] at hFi
      · cases hFi
      · cases hFi
        rw [mem_idRange] at hi'
        exact ⟨hi'.1, hi'.2, _, hf⟩
    · rintro ⟨h1, h2, img, hf⟩
      refine ⟨some img, List.mem_filterMap.mpr ⟨i, mem_idRange.mpr ⟨h1, h2⟩, ?_⟩⟩
      unfold emissionFor
      rw [hf]

theorem collector_emission_exact_witness :
    rsC1.Perm (canonicalResults 1 3 fetchC1) ∧
    orderedEmission 1 3 (imageMapOf rsC1)
      = (idRange 1 3).filterMap (emissionFor fetchC1) :=
  ⟨by decide, (collector_emission_exact 1 3 fetchC1 (by decide)).1⟩

/-- C4: the collector's output is independent of arrival order — for any two
permutations of the same result set in which each identifier appears at most
once, the ordered emission is identical. -/
theorem collector_order_independent (first last : Int)
    {rs₁ rs₂ : List (ImageData α)} (hp : rs₁.Perm rs₂)
    (hnd : (rs₁.map ImageData.index).Nodup) :
    orderedEmission first last (imageMapOf rs₁)
      = orderedEmission first last (imageMapOf rs₂) := by
  rw [imageMapOf_perm hp hnd]

theorem collector_order_independent_witness :
    rsC4a.Perm rsC4b ∧ ((rsC4a.map ImageData.index).Nodup) ∧
    orderedEmission 1 3 (imageMapOf rsC4a)
      = orderedEmission 1 3 (imageMapOf rsC4b) :=
  ⟨by decide, by decide, collector_order_independent 1 3 (by decide) (by decide)⟩

/-! ## Claim theorems: the whole run (C3, C8, C10) -/

/-- C3 counterexample: not every empty range (`first > last`) yields an
empty document without error. At `first = 2`, `last = 0` the range is empty,
but the channel buffer size `last - first + 1 = -1` of lines 89–90 is
negative, so the program fails at `make(chan int, ...)` and produces no
document at all — contradicting the claim that every empty range completes
without failing or aborting. -/
theorem empty_range_aborts_on_negative_capacity :
    (0 : Int) < 2 ∧
    ([] : List (ImageData Nat)).Perm (canonicalResults 2 0 fetchOk) ∧
    goMain 2 0 encodeOk none ([] : List (ImageData Nat)) = none :=
  ⟨by decide, by decide, rfl⟩

/-- C3 (amended): when the configured range is empty with `first = last + 1`
— the only empty-range shape whose channel buffer size `last - first + 1` is
nonnegative, namely 0 — the program produces an ordered sequence of length 0
and a document with zero pages, without error. Empty ranges with
`first > last + 1` instead fail at channel creation before producing any
document (see the counterexample). -/
theorem empty_range_empty_document (first last : Int) (hlt : last < first)
    (hcap : first ≤ last + 1)
    (fetch : Int → Except String α) (encode : α → Except String β)
    (writeResult : Option String) {arrival : List (ImageData α)}
    (hp : arrival.Perm (canonicalResults first last fetch)) :
    orderedEmission first last (imageMapOf arrival) = [] ∧
    ∃ out : RunOutcome β,
      goMain first last encode writeResult arrival = some out ∧
      out.pages = [] := by
  have hnil : idRange first last = [] := idRange_eq_nil hlt
  constructor
  · rw [orderedEmission_arrival first last fetch hp, hnil]
    rfl
  · have hgm : goMain first last encode writeResult arrival
        = runMain first last encode writeResult arrival := by
      unfold goMain
      rw [if_neg (by omega : ¬(last - first + 1 < 0))]
    rw [hgm]
    refine ⟨_, runMain_spec first last fetch encode writeResult hp, ?_⟩
    simp [hnil]

theorem empty_range_empty_document_witness :
    (0 : Int) < 1 ∧ (1 : Int) ≤ 0 + 1 ∧
    ([] : List (ImageData Nat)).Perm (canonicalResults 1 0 fetchOk) ∧
    (orderedEmission 1 0 (imageMapOf ([] : List (ImageData Nat))) = [] ∧
     ∃ out : RunOutcome Nat,
       goMain 1 0 encodeOk none ([] : List (ImageData Nat)) = some out ∧
       out.pages = []) :=
  ⟨by decide, by decide, by decide,
   empty_range_empty_document 1 0 (by decide) (by decide) fetchOk encodeOk none
     (by decide)⟩

/-- C8: no error category is fatal while identifiers remain to process. For
any stubbed fetcher and encoder and any file-write outcome, the run completes
and returns an outcome; per-identifier fetch errors only surface in the
download-error log, page-encode errors only surface in the append-error log
with that page skipped and all other identifiers still processed, and a
failing final write is recorded while the run still finishes with its
success message. -/
theorem errors_not_fatal (first last : Int) (fetch : Int → Except String α)
    (encode : α → Except String β) (writeResult : Option String)
    {arrival : List (ImageData α)}
    (hp : arrival.Perm (canonicalResults first last fetch)) :
    ∃ out : RunOutcome β,
      runMain first last encode writeResult arrival = some out ∧
      out.pages = (idRange first last).filterMap (pageFor fetch encode) ∧
      out.addErrors = (idRange first last).filterMap (addErrorFor fetch encode) ∧
      out.downloadErrors.Perm
        ((idRange first last).filterMap (downloadErrorFor fetch)) ∧
      out.saveError = writeResult ∧
      out.finalMessage = "PDF created successfully as final_output.pdf" := by
  refine ⟨_, runMain_spec first last fetch encode writeResult hp,
    rfl, rfl, ?_, rfl, rfl⟩
  have h1 := hp.filterMap (fun d => d.error.map (fun e => (d.index, e)))
  refine h1.trans ?_
  unfold canonicalResults
  rw [List.filterMap_map]
  have h2 : (idRange first last).filterMap
        ((fun d : ImageData α => d.error.map (fun e => (d.index, e))) ∘ mkResult fetch)
      = (idRange first last).filterMap (downloadErrorFor fetch) := by
    refine List.filterMap_congr (fun i _ => ?_)
    unfold mkResult downloadErrorFor
    cases hf : fetch i <;> simp [hf]
  rw [h2]

theorem errors_not_fatal_witness :
    rsC1.Perm (canonicalResults 1 3 fetchC1) ∧
    ∃ out : RunOutcome Nat,
      runMain 1 3 encode30 (some "disk full") rsC1 = some out ∧
      out.pages = (idRange 1 3).filterMap (pageFor fetchC1 encode30) ∧
      out.addErrors = (idRange 1 3).filterMap (addErrorFor fetchC1 encode30) ∧
      out.downloadErrors.Perm
        ((idRange 1 3).filterMap (downloadErrorFor fetchC1)) ∧
      out.saveError = some "disk full" ∧
      out.finalMessage = "PDF created successfully as final_output.pdf" :=
  ⟨by decide, errors_not_fatal 1 3 fetchC1 encode30 (some "disk full") (by decide)⟩

/-- C10: the final success message is printed unconditionally at the end of
every run, including runs in which writing the output file failed (the write
failure is recorded and the success line still printed). -/
theorem final_message_unconditional (first last : Int)
    (fetch : Int → Except String α) (encode : α → Except String β)
    (writeResult : Option String) {arrival : List (ImageData α)}
    (hp : arrival.Perm (canonicalResults first last fetch)) :
    ∃ out : RunOutcome β,
      runMain first last encode writeResult arrival = some out ∧
      out.saveError = writeResult ∧
      out.finalMessage = "PDF created successfully as final_output.pdf" :=
  ⟨_, runMain_spec first last fetch encode writeResult hp, rfl, rfl⟩

theorem final_message_unconditional_witness :
    rsC1.Perm (canonicalResults 1 3 fetchC1) ∧
    ∃ out : RunOutcome Nat,
      runMain 1 3 encodeOk (some "disk full") rsC1 = some out ∧
      out.saveError = some "disk full" ∧
      out.finalMessage = "PDF created successfully as final_output.pdf" :=
  ⟨by decide,
   final_message_unconditional 1 3 fetchC1 encodeOk (some "disk full") (by decide)⟩

/-! ## Claim theorem: page-append atomicity (C9) -/

/-- C9: `AddImageToPDF` is atomic on encoding failure — when serialization
fails it returns the error with the document unchanged (the error return
precedes `pdf.AddPage()`), and a page is appended exactly when serialization
succeeded. -/
theorem addImageToPDF_atomic (encode : α → Except String β)
    (pdf : List (Int × β)) (img : α) (i : Int) :
    (∀ e, encode img = .error e →
      AddImageToPDF encode pdf img i
        = (pdf, some ("failed to encode image: " ++ e))) ∧
    (∀ buf, encode img = .ok buf →
      AddImageToPDF encode pdf img i = (pdf ++ [(i, buf)], none)) := by
  constructor
  · intro e he
    simp [AddImageToPDF, he]
  · intro buf hb
    simp [AddImageToPDF, hb]

theorem addImageToPDF_atomic_witness :
    encodeBad 7 = .error "bad png" ∧
    AddImageToPDF encodeBad ([(1, 5)] : List (Int × Nat)) 7 2
      = ([(1, 5)], some ("failed to encode image: " ++ "bad png")) :=
  ⟨rfl, (addImageToPDF_atomic encodeBad [(1, 5)] 7 2).1 "bad png" rfl⟩

/-! ## Claim theorem: the worker pool (C2) -/

theorem count_filterMap_snd_sum {w : Nat} (L : List (Int × Fin w)) (i : Int) :
    (∑ j : Fin w,
      ((L.filterMap (fun p => if p.2 = j then some p.1 else none)).count i))
      = (L.map Prod.fst).count i := by
  induction L with
  | nil => simp
  | cons a L ih =>
    have hstep : ∀ j : Fin w,
        (((a :: L).filterMap (fun p => if p.2 = j then some p.1 else none)).count i)
          = ((L.filterMap (fun p => if p.2 = j then some p.1 else none)).count i)
            + (if a.2 = j then (if a.1 = i then 1 else 0) else 0) := by
      intro j
      obtain ⟨x, b⟩ := a
      by_cases h2 : b = j <;> by_cases h1 : x = i <;>
        simp [List.filterMap_cons, List.count_cons, h2, h1]
    calc (∑ j : Fin w,
          (((a :: L).filterMap (fun p => if p.2 = j then some p.1 else none)).count i))
        = (∑ j : Fin w,
            (((L.filterMap (fun p => if p.2 = j then some p.1 else none)).count i)
              + (if a.2 = j then (if a.1 = i then 1 else 0) else 0))) := by
          exact Finset.sum_congr rfl (fun j _ => hstep j)
      _ = ((L.map Prod.fst).count i) + (if a.1 = i then 1 else 0) := by
          rw [Finset.sum_add_distrib, ih, Finset.sum_ite_eq]
          simp
      _ = ((a :: L).map Prod.fst).count i := by
          rw [List.map_cons, List.count_cons]
          by_cases h1 : a.1 = i <;> simp [h1, beq_iff_eq]

theorem sum_count_workerJobs {w : Nat} (jobs : List Int) (s : List (Fin w))
    (hlen : s.length = jobs.length) (i : Int) :
    (∑ j : Fin w, ((workerJobs jobs s j).count i)) = jobs.count i := by
  unfold workerJobs
  rw [count_filterMap_snd_sum]
  rw [List.map_fst_zip jobs s (by omega)]

theorem idRange_count (first last i : Int) :
    (idRange first last).count i = if first ≤ i ∧ i ≤ last then 1 else 0 := by
  by_cases h : first ≤ i ∧ i ≤ last
  · rw [if_pos h]
    exact List.count_eq_one_of_mem (idRange_nodup first last) (mem_idRange.mpr h)
  · rw [if_neg h]
    exact List.count_eq_zero_of_not_mem (fun hm => h (mem_idRange.mp hm))

theorem count_flatMap_eq_sum {γ : Type} (l : List γ) (f : γ → List Int) (i : Int) :
    ((l.flatMap f).count i) = (l.map (fun a => (f a).count i)).sum := by
  induction l with
  | nil => rfl
  | cons a l ih => simp [List.flatMap_cons, List.count_append, ih]

theorem allResults_map_index (fetch : Int → Except String α) (jobs : List Int)
    {w : Nat} (s : List (Fin w)) :
    (allResults fetch jobs s).map ImageData.index
      = (List.finRange w).flatMap (fun j => workerJobs jobs s j) := by
  unfold allResults workerResults
  rw [List.map_flatMap]
  refine congrArg _ (funext fun j => ?_)
  rw [List.map_map]
  have h : ImageData.index ∘ mkResult fetch = fun i => i :=
    funext (mkResult_index fetch)
  rw [h, List.map_id']

/-- C2: for every schedule of the jobs channel (every way channel semantics
can distribute the queued identifiers over the `w` workers), each identifier
of `[first, last]` is fetched exactly once across all workers — no duplicate,
no omission — and exactly one tagged result per identifier is published to
the results channel; identifiers outside the range are never fetched. -/
theorem pool_fetches_each_id_once {w : Nat} (first last : Int)
    (fetch : Int → Except String α) (s : List (Fin w))
    (hlen : s.length = (idRange first last).length) (i : Int) :
    (∑ j : Fin w, ((workerJobs (idRange first last) s j).count i))
      = (if first ≤ i ∧ i ≤ last then 1 else 0) ∧
    (((allResults fetch (idRange first last) s).map ImageData.index).count i)
      = (if first ≤ i ∧ i ≤ last then 1 else 0) := by
  have h1 : (∑ j : Fin w, ((workerJobs (idRange first last) s j).count i))
      = (idRange first last).count i :=
    sum_count_workerJobs (idRange first last) s hlen i
  refine ⟨h1.trans (idRange_count first last i), ?_⟩
  rw [allResults_map_index, count_flatMap_eq_sum, ← Fin.sum_univ_def, h1,
    idRange_count]

theorem pool_fetches_each_id_once_witness :
    scheduleC2.length = (idRange 1 2).length ∧
    ((∑ j : Fin 2, ((workerJobs (idRange 1 2) scheduleC2 j).count 1))
      = (if (1 : Int) ≤ 1 ∧ (1 : Int) ≤ 2 then 1 else 0) ∧
    (((allResults fetchOk (idRange 1 2) scheduleC2).map ImageData.index).count 1)
      = (if (1 : Int) ≤ 1 ∧ (1 : Int) ≤ 2 then 1 else 0)) :=
  ⟨by decide, pool_fetches_each_id_once 1 2 fetchOk scheduleC2 (by decide) 1⟩

/-! ## Claim theorem: completion signalling (C5) -/

theorem poolInv_step {w : Nat} {fetch : Int → Except String α}
    {s t : PoolState w α} (hstep : PoolStep fetch s t)
    (h₁ : s.resultsClosed = true → ∀ j, s.exited j = true)
    (h₂ : s.collectorDone = true → s.resultsClosed = true ∧ s.resultsBuf = []) :
    (t.resultsClosed = true → ∀ j, t.exited j = true) ∧
    (t.collectorDone = true → t.resultsClosed = true ∧ t.resultsBuf = []) := by
  cases hstep with
  | sendJob i rest h hcl => exact ⟨h₁, h₂⟩
  | closeJobs h hcl => exact ⟨h₁, h₂⟩
  | takeJob j i rest hb hex hp => exact ⟨h₁, h₂⟩
  | publish j i hb hcl =>
    refine ⟨h₁, fun hd => absurd ((h₂ hd).1) ?_⟩
    rw [hcl]
    exact Bool.false_ne_true
  | workerExit j hb hex hp hcl =>
    refine ⟨fun hc j' => ?_, h₂⟩
    dsimp only
    rw [Function.update_apply]
    by_cases hj : j' = j
    · rw [if_pos hj]
    · rw [if_neg hj]
      exact h₁ hc j'
  | closeResults hall hcl =>
    exact ⟨fun _ j => hall j, fun hd => ⟨rfl, (h₂ hd).2⟩⟩
  | collectorRecv d rest hr hdone =>
    refine ⟨h₁, fun hd => absurd hd ?_⟩
    dsimp only
    rw [hdone]
    exact Bool.false_ne_true
  | collectorFinish hr hcl hdone =>
    exact ⟨h₁, fun _ => ⟨hcl, hr⟩⟩

/-- C5: in every execution of the pipeline, the results channel is sealed
strictly after every worker has exited — whenever a reachable state has
`resultsClosed`, all `w` workers have already run their deferred `wg.Done`
and returned — and the collector stops only upon observing the end-of-stream
marker: whenever the collector's `range` loop has ended, the channel was
closed and fully drained (it never stops by counting received results). -/
theorem results_sealed_after_workers {w : Nat} (fetch : Int → Except String α)
    (first last : Int) {s : PoolState w α}
    (hreach : Reachable fetch w first last s) :
    (s.resultsClosed = true → ∀ j, s.exited j = true) ∧
    (s.collectorDone = true → s.resultsClosed = true ∧ s.resultsBuf = []) := by
  induction hreach with
  | refl =>
    constructor <;> intro h <;> simp [initState] at h
  | tail hr hstep ih => exact poolInv_step hstep ih.1 ih.2

theorem results_sealed_after_workers_witness :
    poolS4.exited 0 = true ∧ poolS4.resultsClosed = true ∧
    poolS4.resultsBuf = [] :=
  have step1 : PoolStep fetchBad (initState 1 Nat 1 0) poolS1 :=
    PoolStep.closeJobs (initState 1 Nat 1 0) rfl rfl
  have step2 : PoolStep fetchBad poolS1 poolS2 :=
    PoolStep.workerExit poolS1 0 rfl rfl rfl rfl
  have step3 : PoolStep fetchBad poolS2 poolS3 :=
    PoolStep.closeResults poolS2 (by decide) rfl
  have step4 : PoolStep fetchBad poolS3 poolS4 :=
    PoolStep.collectorFinish poolS3 rfl rfl rfl
  have hreach : Reachable fetchBad 1 1 0 poolS4 :=
    Relation.ReflTransGen.tail
      (Relation.ReflTransGen.tail
        (Relation.ReflTransGen.tail
          (Relation.ReflTransGen.tail Relation.ReflTransGen.refl step1)
          step2)
        step3)
      step4
  ⟨(results_sealed_after_workers fetchBad 1 0 hreach).1 rfl 0,
   ((results_sealed_after_workers fetchBad 1 0 hreach).2 rfl).1,
   ((results_sealed_after_workers fetchBad 1 0 hreach).2 rfl).2⟩

/-! ## Claim theorems: normalization (C6, C7) -/

theorem mul257_div_mod (v : Nat) (hv : v < 256) : v * 257 / 256 % 256 = v := by
  have h1 : v * 257 = v + 256 * v := by omega
  rw [h1, Nat.add_mul_div_left _ _ (by norm_num : (0 : Nat) < 256),
    Nat.div_eq_of_lt hv, Nat.zero_add, Nat.mod_eq_of_lt hv]

theorem rgbaModel_widen8 {r g b a : Nat} (hr : r < 256) (hg : g < 256)
    (hb : b < 256) (ha : a < 256) :
    rgbaModel (widen8 r g b a) = widen8 r g b a := by
  unfold rgbaModel widen8
  have h256 : (2 : Nat) ^ 8 = 256 := by norm_num
  simp only [Color.mk.injEq, Nat.shiftRight_eq_div_pow, h256]
  exact ⟨congrArg (· * 257) (mul257_div_mod r hr),
    congrArg (· * 257) (mul257_div_mod g hg),
    congrArg (· * 257) (mul257_div_mod b hb),
    congrArg (· * 257) (mul257_div_mod a ha)⟩

/-- C6 counterexample: a bitmap that is already normalized (8-bit RGBA at
every coordinate) on which `convertTo8Bit` is not a pixel-identical no-op.
Because `draw.Draw` is called with source point `(0,0)` rather than the
source's `Bounds().Min`, an image whose bounds start at `(1,1)` has its only
in-bounds pixel copied from coordinate `(0,0)` — outside the source
rectangle — so the output pixel is the zero color, not the original red. -/
theorem convertTo8Bit_not_idempotent_off_origin :
    IsNormalized imgOffOrigin ∧
    (convertTo8Bit imgOffOrigin).bounds = imgOffOrigin.bounds ∧
    imgOffOrigin.bounds.contains 1 1 = true ∧
    (convertTo8Bit imgOffOrigin).At 1 1 ≠ imgOffOrigin.At 1 1 :=
  ⟨fun _ _ => ⟨255, 0, 0, 255, by decide, by decide, by decide, by decide, rfl⟩,
   rfl, by decide, by decide⟩

/-- C6 (amended): normalization is idempotent on already-normalized bitmaps
whose bounds start at the origin — for every bitmap reporting 8-bit RGBA
colors whose rectangle has `Min = (0,0)`, `convertTo8Bit` yields the same
color value at every coordinate of the image's bounds. (The restriction to
origin-anchored bounds is forced: `draw.Draw` is invoked with source point
`(0,0)`, so for any other bounds the copy is translated, see the
counterexample.) -/
theorem convertTo8Bit_idempotent_on_origin (img : GoImage)
    (hnorm : IsNormalized img) (h0x : img.bounds.minX = 0)
    (h0y : img.bounds.minY = 0) (x y : Int)
    (hin : img.bounds.contains x y = true) :
    (convertTo8Bit img).At x y = img.At x y := by
  obtain ⟨r, g, b, a, hr, hg, hb, ha, heq⟩ := hnorm x y
  have hAt : (convertTo8Bit img).At x y = rgbaModel (img.At x y) := by
    simp [convertTo8Bit, h0x, h0y, hin]
  rw [hAt, heq, rgbaModel_widen8 hr hg hb ha]

theorem convertTo8Bit_idempotent_on_origin_witness :
    IsNormalized imgAtOrigin ∧ imgAtOrigin.bounds.minX = 0 ∧
    imgAtOrigin.bounds.minY = 0 ∧ imgAtOrigin.bounds.contains 0 0 = true ∧
    (convertTo8Bit imgAtOrigin).At 0 0 = imgAtOrigin.At 0 0 :=
  have hn : IsNormalized imgAtOrigin :=
    fun _ _ => ⟨255, 0, 0, 255, by decide, by decide, by decide, by decide, rfl⟩
  ⟨hn, rfl, rfl, by decide,
   convertTo8Bit_idempotent_on_origin imgAtOrigin hn rfl rfl 0 0 (by decide)⟩

/-- C7: for every decoded source image, regardless of its native channel
depth or color model (any `GoImage` whatsoever), `convertTo8Bit` returns an
8-bit-per-channel RGBA raster over a destination buffer sized exactly to the
source's bounds, and `DownloadImage` performs this conversion on every
successful decode — unconditionally, even when the source is already
8-bit. -/
theorem convertTo8Bit_normalizes (img : GoImage) :
    (convertTo8Bit img).bounds = img.bounds ∧
    IsNormalized (convertTo8Bit img) ∧
    ∀ (body : ByteArray),
      DownloadImage (.ok body) (fun _ => .ok img) = .ok (convertTo8Bit img) := by
  refine ⟨rfl, fun x y => ?_, fun _ => rfl⟩
  show Is8BitColor
    (if img.bounds.contains x y
        && img.bounds.contains (x - img.bounds.minX) (y - img.bounds.minY) then
      rgbaModel (img.At (x - img.bounds.minX) (y - img.bounds.minY))
    else zeroColor)
  split
  · exact ⟨_, _, _, _, Nat.mod_lt _ (by norm_num), Nat.mod_lt _ (by norm_num),
      Nat.mod_lt _ (by norm_num), Nat.mod_lt _ (by norm_num), rfl⟩
  · exact ⟨0, 0, 0, 0, by norm_num, by norm_num, by norm_num, by norm_num, rfl⟩
